import Mathlib

/-
Verification of the DRL robotic-arm environment of the notebooks
`1-Getting_started_with_pybullet.ipynb` and `2-DRL_training.ipynb`
(repository DRL_at_ENSEIRB-MATMECA).

The repository ships the two notebooks; the helper modules they import
(`utils/RoboticArm_2DOF.py`, `utils/tools.py`, `rewards.py`) are not part of
the source tree.  Definitions for those helpers are therefore modelled from
the specification (each such definition says so in its doc comment), while
the notebook cells themselves (the best-checkpoint selection loop and the
per-target control loop of section 2.3) are embedded directly from their
source.  Machine floats are modelled by rational numbers; the Euclidean
distance is handled through its square, moving to real square roots only in
theorem statements.
-/

namespace DRLArm

/-! ### Geometry -/

/-- A 3D point with rational coordinates (models a NumPy float triple). -/
structure Point3 where
  x : ℚ
  y : ℚ
  z : ℚ
deriving DecidableEq

/-- Squared Euclidean distance between two 3D points.  The Python code uses
`numpy.linalg.norm`; comparisons of nonnegative distances are equivalent to
comparisons of their squares, which keeps the model inside ℚ. -/
def sqDist (a b : Point3) : ℚ :=
  (a.x - b.x) ^ 2 + (a.y - b.y) ^ 2 + (a.z - b.z) ^ 2

theorem sqDist_nonneg (a b : Point3) : 0 ≤ sqDist a b := by
  have h1 : (0:ℚ) ≤ (a.x - b.x) ^ 2 := sq_nonneg _
  have h2 : (0:ℚ) ≤ (a.y - b.y) ^ 2 := sq_nonneg _
  have h3 : (0:ℚ) ≤ (a.z - b.z) ^ 2 := sq_nonneg _
  unfold sqDist
  linarith

/-! ### Reward functions

Modelled from the spec: `rewards.py` is not under the source tree; §4.2
requires a Zero variant (always 0) and a Distance variant, "monotonically
decreasing function of the distance between EffectorPosition and
TargetPosition (e.g., negative distance, or negative squared distance)".
The Distance variant is modelled as negative squared distance, one of the
spec's two named instances. -/

/-- Modelled from the spec: the always-zero reward variant of `rewards.py`. -/
def reward_0 (_eff _target : Point3) : ℚ := 0

/-- Modelled from the spec: the distance-based reward variant of
`rewards.py`, taken as the negative squared Euclidean distance between the
effector and the target. -/
def reward_1 (eff target : Point3) : ℚ := -(sqDist eff target)

/-- The reward variant selected by name at construction
(`reward = 'reward_0'` or `reward = 'reward_1'` in the notebook). -/
inductive RewardVariant where
  | reward_0
  | reward_1
deriving DecidableEq

/-- Apply the selected reward variant to the refreshed effector and target
positions. -/
def RewardVariant.apply : RewardVariant → Point3 → Point3 → ℚ
  | .reward_0, e, t => DRLArm.reward_0 e t
  | .reward_1, e, t => DRLArm.reward_1 e t

/-- C1: for a fixed target, the Distance reward variant `reward_1` assigns a
strictly greater reward to a strictly closer effector position: if the
Euclidean distance of `e1` to the target is strictly smaller than that of
`e2`, then `reward_1 e1 t > reward_1 e2 t`. -/
theorem reward_1_strict_monotone (e1 e2 t : Point3)
    (h : Real.sqrt ((sqDist e1 t : ℚ) : ℝ) < Real.sqrt ((sqDist e2 t : ℚ) : ℝ)) :
    reward_1 e2 t < reward_1 e1 t := by
  have hsq : sqDist e1 t < sqDist e2 t := by
    by_contra hle
    push_neg at hle
    have : Real.sqrt ((sqDist e2 t : ℚ) : ℝ) ≤ Real.sqrt ((sqDist e1 t : ℚ) : ℝ) := by
      apply Real.sqrt_le_sqrt
      exact_mod_cast hle
    exact absurd h (not_lt.mpr this)
  unfold reward_1
  linarith

/-- Witness for C1 at a concrete input: the effector sitting on the target is
strictly closer than an effector at distance 1, and gets strictly larger
reward. -/
theorem reward_1_strict_monotone_at :
    reward_1 ⟨1, 0, 0⟩ ⟨0, 0, 0⟩ < reward_1 ⟨0, 0, 0⟩ ⟨0, 0, 0⟩ := by
  apply reward_1_strict_monotone
  have h1 : ((sqDist ⟨0,0,0⟩ ⟨0,0,0⟩ : ℚ) : ℝ) = 0 := by
    norm_num [sqDist]
  have h2 : ((sqDist ⟨1,0,0⟩ ⟨0,0,0⟩ : ℚ) : ℝ) = 1 := by
    norm_num [sqDist]
  rw [h1, h2, Real.sqrt_zero, Real.sqrt_one]
  norm_num

/-! ### Environment model

Modelled from the spec: the class `RoboticArm_2DOF_PyBullet` lives in
`utils/RoboticArm_2DOF.py`, which is not under the source tree; only its
construction and call sites appear in the notebooks.  The model below follows
§3–§5 of the spec.  The physics backend and the forward kinematics are
external collaborators (PyBullet and the URDF model), so they enter the model
as explicit function parameters `phys` and `fk`. -/

/-- Joint angles (degrees, as passed by the notebooks) and angular
velocities of the 2-DOF arm. -/
structure JointConfig where
  q1 : ℚ
  q2 : ℚ
  qd1 : ℚ
  qd2 : ℚ
deriving DecidableEq

/-- A per-joint control command from the training driver. -/
structure Action where
  a1 : ℚ
  a2 : ℚ
deriving DecidableEq

/-- Error taxonomy of spec §7. -/
inductive EnvErr where
  | configError
  | invalidState
  | resourceConflict
  | outOfRange
deriving DecidableEq

/-- Construction parameters of `RoboticArm_2DOF_PyBullet`
(`dt`, `epsilon`, `seed`, `init_robot_angles`, `init_target_pos`, `reward`,
`max_episode_steps`, action bounds; `none` means unbounded episodes). -/
structure EnvConfig where
  dt : ℚ
  epsilon : ℚ
  seed : ℕ
  initAngles : ℚ × ℚ
  initTargetPos : Point3
  rewardVariant : RewardVariant
  maxEpisodeSteps : Option ℕ
  actionLow : ℚ
  actionHigh : ℚ
deriving DecidableEq

/-- The episode state tracker of spec §3: joint configuration, target
position, step counter, RNG state, per-episode closeness threshold and the
closed flag of the session.  The effector position is derived, never
stored. -/
structure EnvState where
  cfg : EnvConfig
  joints : JointConfig
  target : Point3
  stepCount : ℕ
  rngState : ℕ
  epsilon : ℚ
  closed : Bool
deriving DecidableEq

/-- Modelled from the spec: the environment's seeded pseudo-random
generator (NumPy's generator in the source), represented by a 64-bit linear
congruential step.  Spec §5: seeded once at construction, advanced
deterministically across `reset` calls. -/
def rngNext (x : ℕ) : ℕ :=
  (6364136223846793005 * x + 1442695040888963407) % 2 ^ 64

/-- Map a raw generator value into a workspace coordinate in [0, 1]. -/
def drawCoord (r : ℕ) : ℚ := ((r % 1001 : ℕ) : ℚ) / 1000

/-- Modelled from the spec: a randomized reachable target position drawn
from two consecutive generator values; the notebooks randomize the (x, z)
coordinates and keep y = 0. -/
def drawTargetPos (r1 r2 : ℕ) : Point3 := ⟨drawCoord r1, 0, drawCoord r2⟩

/-- Modelled from the spec: `construct` validates `timestep > 0` and that
`max_episode_steps` is a positive integer or unbounded (§4.1), then builds
the initial episode state with the RNG seeded from `seed`. -/
def construct (cfg : EnvConfig) : Except EnvErr EnvState :=
  if cfg.dt ≤ 0 then .error .configError
  else if cfg.maxEpisodeSteps = some 0 then .error .configError
  else .ok
    { cfg := cfg
      joints := ⟨cfg.initAngles.1, cfg.initAngles.2, 0, 0⟩
      target := cfg.initTargetPos
      stepCount := 0
      rngState := cfg.seed % 2 ^ 64
      epsilon := cfg.epsilon
      closed := false }

/-- The recognized fields of the `options` object of `reset`
(`target_initial_pos`, `randomize`, `robot_initial_angle_deg`, `epsilon`);
the notebook occasionally also passes `dt`, which the contract of §4.1 does
not list and the model ignores. -/
structure ResetOptions where
  targetInitialPos : Option Point3
  randomize : Bool
  robotInitialAngleDeg : Option (ℚ × ℚ)
  epsilonOverride : Option ℚ
deriving DecidableEq

/-- Modelled from the spec (§4.1 `reset`): reset joints to the initial pose
with zero velocities, set the target (drawing a fresh one from the RNG when
`randomize` is true, otherwise the explicit or previous one), zero the step
counter and apply the per-episode epsilon override. -/
def resetState (opts : ResetOptions) (s : EnvState) : EnvState :=
  let angles := opts.robotInitialAngleDeg.getD s.cfg.initAngles
  let eps := opts.epsilonOverride.getD s.cfg.epsilon
  if opts.randomize then
    let r1 := rngNext s.rngState
    let r2 := rngNext r1
    { s with joints := ⟨angles.1, angles.2, 0, 0⟩
             target := drawTargetPos r1 r2
             stepCount := 0
             rngState := r2
             epsilon := eps }
  else
    { s with joints := ⟨angles.1, angles.2, 0, 0⟩
             target := opts.targetInitialPos.getD s.target
             stepCount := 0
             epsilon := eps }

/-- The fixed-shape observation of spec §3: joint angles, joint velocities
and the relative vector from the effector to the target. -/
structure Observation where
  q1 : ℚ
  q2 : ℚ
  qd1 : ℚ
  qd2 : ℚ
  relx : ℚ
  rely : ℚ
  relz : ℚ
deriving DecidableEq

/-- The effector position derived from the current joint angles by the
forward kinematics `fk` (spec §3: read-only derived value). -/
def effector_pos (fk : ℚ × ℚ → Point3) (s : EnvState) : Point3 :=
  fk (s.joints.q1, s.joints.q2)

/-- Build the observation of a state under forward kinematics `fk`. -/
def mkObs (fk : ℚ × ℚ → Point3) (s : EnvState) : Observation :=
  let eff := effector_pos fk s
  ⟨s.joints.q1, s.joints.q2, s.joints.qd1, s.joints.qd2,
   s.target.x - eff.x, s.target.y - eff.y, s.target.z - eff.z⟩

/-- The two return shapes of `reset` seen across the notebooks: a bare
observation (`obs = env.reset(...)`, §1.2 cells) or an
`(observation, info)` pair (`obs, _ = env.reset(...)`, §2.3 cell);
spec §9 records this API-versioning split.  The info member carries no data
in the model. -/
inductive ResetRet where
  | bare (o : Observation)
  | pair (o : Observation) (info : Unit)
deriving DecidableEq

/-- Whether a `reset` return value is a bare observation. -/
def ResetRet.isBare : ResetRet → Bool
  | .bare _ => true
  | .pair _ _ => false

/-- Modelled from the spec: `reset` of `utils/RoboticArm_2DOF.py`.  The
return shape follows the §2.3 notebook cell `obs, _ = env.reset(...)`,
which unpacks exactly two values, so the model returns the
`(observation, info)` pair (the shape spec §9 attributes to the source). -/
def reset (fk : ℚ × ℚ → Point3) (opts : ResetOptions) (s : EnvState) :
    EnvState × ResetRet :=
  let s2 := resetState opts s
  (s2, .pair (mkObs fk s2) ())

/-- Clip a value into the interval `[lo, hi]` (spec §7: out-of-range actions
are clipped, not rejected). -/
def clip (lo hi v : ℚ) : ℚ := max lo (min v hi)

/-- Clip an action against the declared per-joint bounds. -/
def clipAction (cfg : EnvConfig) (a : Action) : Action :=
  ⟨clip cfg.actionLow cfg.actionHigh a.a1, clip cfg.actionLow cfg.actionHigh a.a2⟩

/-- The joint configuration after the physics backend advances one tick of
size `dt` under the clipped action. -/
def next_joints (phys : ℚ → JointConfig → Action → JointConfig)
    (s : EnvState) (a : Action) : JointConfig :=
  phys s.cfg.dt s.joints (clipAction s.cfg a)

/-- The effector position refreshed from backend state after one step. -/
def refreshed_effector (fk : ℚ × ℚ → Point3)
    (phys : ℚ → JointConfig → Action → JointConfig)
    (s : EnvState) (a : Action) : Point3 :=
  fk ((next_joints phys s a).q1, (next_joints phys s a).q2)

/-- The truncation flag of spec §4.1, step 7: the step counter reached
`max_episode_steps` (time limit, not success), mutually exclusive with the
success signal. -/
def truncatedFlag (term : Bool) (maxSteps : Option ℕ) (cnt : ℕ) : Bool :=
  !term && (match maxSteps with
    | none => false
    | some m => decide (m ≤ cnt))

/-- The result tuple of `step`: observation, reward, terminated, truncated
(the info member carries no data in the model) together with the successor
state. -/
structure StepResult where
  obs : Observation
  reward : ℚ
  terminated : Bool
  truncated : Bool
  state : EnvState
deriving DecidableEq

/-- Modelled from the spec (§4.1 `step`, items 1–8): clip the action, let
the physics backend advance one tick, refresh the effector, compute the
reward, set `terminated` iff the Euclidean distance of effector to target is
below the threshold (expressed on squares: `0 < ε ∧ sqDist < ε²`, which is
equivalent to `dist < ε` for every ε), set `truncated` at the step ceiling,
and increment the step counter. -/
def step (fk : ℚ × ℚ → Point3)
    (phys : ℚ → JointConfig → Action → JointConfig)
    (s : EnvState) (a : Action) : StepResult :=
  let j2 := next_joints phys s a
  let eff := refreshed_effector fk phys s a
  let cnt := s.stepCount + 1
  let term : Bool := decide (0 < s.epsilon ∧ sqDist eff s.target < s.epsilon ^ 2)
  let trunc : Bool := truncatedFlag term s.cfg.maxEpisodeSteps cnt
  let s2 : EnvState := { s with joints := j2, stepCount := cnt }
  { obs := mkObs fk s2
    reward := s.cfg.rewardVariant.apply eff s.target
    terminated := term
    truncated := trunc
    state := s2 }

/-- Modelled from the spec (§4.1): `set_target_position` overrides the
target outside the reset cycle; it does not touch the step counter or the
joint state. -/
def set_target_position (p : Point3) (s : EnvState) : EnvState :=
  { s with target := p }

/-- Run `step` over a list of actions, collecting the step results. -/
def iterStep (fk : ℚ × ℚ → Point3)
    (phys : ℚ → JointConfig → Action → JointConfig) :
    EnvState → List Action → List StepResult
  | _, [] => []
  | s, a :: as =>
    let r := step fk phys s a
    r :: iterStep fk phys r.state as

/-- Iterate `resetState` with fixed options. -/
def resetIter (opts : ResetOptions) (s : EnvState) : ℕ → EnvState
  | 0 => s
  | k + 1 => resetState opts (resetIter opts s k)

/-! ### Concrete fixtures used by the witnesses -/

/-- A concrete configuration mirroring the notebook's section 2.2 call
(`dt = 1/240`, `epsilon = 1e-3`, `seed = 1234567`,
`init_robot_angles = (113, -140)`, `init_target_pos = (0.5, 0, 0.5)`,
`reward = 'reward_1'`, `max_episode_steps = 256`; per-joint command bounds
normalized to [-1, 1]). -/
def cfg0 : EnvConfig :=
  { dt := 1 / 240
    epsilon := 1 / 1000
    seed := 1234567
    initAngles := (113, -140)
    initTargetPos := ⟨1 / 2, 0, 1 / 2⟩
    rewardVariant := .reward_1
    maxEpisodeSteps := some 256
    actionLow := -1
    actionHigh := 1 }

/-- A concrete ready state for `cfg0`. -/
def s0 : EnvState :=
  { cfg := cfg0
    joints := ⟨113, -140, 0, 0⟩
    target := ⟨1 / 2, 0, 1 / 2⟩
    stepCount := 0
    rngState := 1234567
    epsilon := 1 / 1000
    closed := false }

/-- A concrete forward kinematics placing the effector at (0.5, 0, 0.5). -/
def fk0 : ℚ × ℚ → Point3 := fun _ => ⟨1 / 2, 0, 1 / 2⟩

/-- A concrete forward kinematics placing the effector at the origin. -/
def fkZero : ℚ × ℚ → Point3 := fun _ => ⟨0, 0, 0⟩

/-- A concrete physics backend that leaves the joints unchanged. -/
def phys0 : ℚ → JointConfig → Action → JointConfig := fun _ j _ => j

/-- The zero action. -/
def act0 : Action := ⟨0, 0⟩

/-! ### C2: termination flag -/

/-- C2: after a step, `terminated` is true iff the Euclidean distance
between the refreshed effector position and the target is below the
closeness threshold; and if the target has been set exactly to the current
effector position, the immediately following step reports
`terminated = true` whenever the threshold is positive and the effector
moved by less than the threshold during that tick (the physics backend is
external, so its one-tick displacement enters as a hypothesis). -/
theorem step_terminated_iff_within_epsilon (fk : ℚ × ℚ → Point3)
    (phys : ℚ → JointConfig → Action → JointConfig)
    (s : EnvState) (a : Action) :
    ((step fk phys s a).terminated = true ↔
      Real.sqrt ((sqDist (refreshed_effector fk phys s a) s.target : ℚ) : ℝ)
        < ((s.epsilon : ℚ) : ℝ))
    ∧ (0 < s.epsilon →
        sqDist (refreshed_effector fk phys (set_target_position (effector_pos fk s) s) a)
            (effector_pos fk s) < s.epsilon ^ 2 →
        (step fk phys (set_target_position (effector_pos fk s) s) a).terminated = true) := by
  constructor
  · show decide (0 < s.epsilon ∧ _ < s.epsilon ^ 2) = true ↔ _
    rw [decide_eq_true_iff]
    constructor
    · rintro ⟨heps, hlt⟩
      have heps' : (0 : ℝ) < ((s.epsilon : ℚ) : ℝ) := by exact_mod_cast heps
      rw [Real.sqrt_lt' heps']
      exact_mod_cast hlt
    · intro h
      have heps' : (0 : ℝ) < ((s.epsilon : ℚ) : ℝ) :=
        lt_of_le_of_lt (Real.sqrt_nonneg _) h
      have heps : 0 < s.epsilon := by exact_mod_cast heps'
      refine ⟨heps, ?_⟩
      have := (Real.sqrt_lt' heps').mp h
      exact_mod_cast this
  · intro heps hmove
    show decide _ = true
    rw [decide_eq_true_iff]
    refine ⟨heps, ?_⟩
    simpa [set_target_position] using hmove

/-- Witness for C2: with the target set to the current effector position and
a physics backend that leaves the joints in place, the next step terminates. -/
theorem step_terminated_iff_within_epsilon_at :
    (step fk0 phys0 (set_target_position (effector_pos fk0 s0) s0) act0).terminated = true :=
  (step_terminated_iff_within_epsilon fk0 phys0 s0 act0).2
    (by norm_num [s0, cfg0])
    (by norm_num [s0, cfg0, fk0, phys0, act0, sqDist, refreshed_effector,
          next_joints, effector_pos, set_target_position, clipAction, clip])

/-! ### C3: exclusivity of terminated and truncated -/

/-- The success flag masks the truncation flag. -/
theorem truncatedFlag_and_self (t : Bool) (ms : Option ℕ) (c : ℕ) :
    (t && truncatedFlag t ms c) = false := by
  cases t <;> simp [truncatedFlag]

/-- C3: in every step result, `terminated` and `truncated` are never both
true. -/
theorem step_terminated_truncated_exclusive (fk : ℚ × ℚ → Point3)
    (phys : ℚ → JointConfig → Action → JointConfig)
    (s : EnvState) (a : Action) :
    ((step fk phys s a).terminated && (step fk phys s a).truncated) = false :=
  truncatedFlag_and_self _ _ _

/-! ### C4: step ceiling and counter reset -/

theorem step_state_cfg (fk : ℚ × ℚ → Point3)
    (phys : ℚ → JointConfig → Action → JointConfig) (s : EnvState) (a : Action) :
    (step fk phys s a).state.cfg = s.cfg := rfl

theorem step_state_count (fk : ℚ × ℚ → Point3)
    (phys : ℚ → JointConfig → Action → JointConfig) (s : EnvState) (a : Action) :
    (step fk phys s a).state.stepCount = s.stepCount + 1 := rfl

theorem iterStep_length (fk : ℚ × ℚ → Point3)
    (phys : ℚ → JointConfig → Action → JointConfig) :
    ∀ (acts : List Action) (s : EnvState),
      (iterStep fk phys s acts).length = acts.length := by
  intro acts
  induction acts with
  | nil => intro s; rfl
  | cons a as ih => intro s; simp [iterStep, ih]

/-- In a run where no step terminates, the i-th step result carries the
truncation flag `decide (m ≤ stepCount + i + 1)`. -/
theorem iterStep_truncated_spec (fk : ℚ × ℚ → Point3)
    (phys : ℚ → JointConfig → Action → JointConfig) (m : ℕ) :
    ∀ (acts : List Action) (s : EnvState),
      s.cfg.maxEpisodeSteps = some m →
      (∀ r ∈ iterStep fk phys s acts, r.terminated = false) →
      ∀ (i : ℕ) (r : StepResult), (iterStep fk phys s acts)[i]? = some r →
        r.truncated = decide (m ≤ s.stepCount + i + 1) := by
  intro acts
  induction acts with
  | nil =>
    intro s _ _ i r hget
    simp [iterStep] at hget
  | cons a as ih =>
    intro s hmax hterm i r hget
    have hhead : (step fk phys s a).terminated = false := by
      apply hterm
      simp [iterStep]
    match i with
    | 0 =>
      rw [iterStep] at hget
      rw [List.getElem?_cons_zero] at hget
      cases hget
      show truncatedFlag (step fk phys s a).terminated s.cfg.maxEpisodeSteps
          (s.stepCount + 1) = _
      rw [hhead, hmax]
      unfold truncatedFlag
      simp
    | i + 1 =>
      rw [iterStep] at hget
      rw [List.getElem?_cons_succ] at hget
      have hmax2 : (step fk phys s a).state.cfg.maxEpisodeSteps = some m := by
        rw [step_state_cfg]; exact hmax
      have hterm2 : ∀ r ∈ iterStep fk phys (step fk phys s a).state as,
          r.terminated = false := by
        intro r2 hr2
        apply hterm
        rw [iterStep]
        exact List.mem_cons_of_mem _ hr2
      have := ih (step fk phys s a).state hmax2 hterm2 i r hget
      rw [this, step_state_count]
      have harith : s.stepCount + 1 + i + 1 = s.stepCount + (i + 1) + 1 := by omega
      rw [harith]

/-- Without a step ceiling (`max_episode_steps = None`) a step is never
truncated. -/
theorem step_truncated_none (fk : ℚ × ℚ → Point3)
    (phys : ℚ → JointConfig → Action → JointConfig)
    (s : EnvState) (a : Action) (hnone : s.cfg.maxEpisodeSteps = none) :
    (step fk phys s a).truncated = false := by
  show truncatedFlag _ s.cfg.maxEpisodeSteps _ = false
  rw [hnone]
  unfold truncatedFlag
  simp

/-- C4: `reset` zeroes the step counter; with `max_episode_steps = None`
no step is ever truncated; and with a finite ceiling `m > 0`, after `m`
consecutive non-terminating steps from a fresh episode the final step result
carries `truncated = true`. -/
theorem step_counter_truncation_reset :
    (∀ (opts : ResetOptions) (s : EnvState), (resetState opts s).stepCount = 0)
    ∧ (∀ (fk : ℚ × ℚ → Point3) (phys : ℚ → JointConfig → Action → JointConfig)
        (s : EnvState) (a : Action), s.cfg.maxEpisodeSteps = none →
        (step fk phys s a).truncated = false)
    ∧ (∀ (fk : ℚ × ℚ → Point3) (phys : ℚ → JointConfig → Action → JointConfig)
        (acts : List Action) (s : EnvState) (m : ℕ),
        s.cfg.maxEpisodeSteps = some m → s.stepCount = 0 →
        acts.length = m → 0 < m →
        (∀ r ∈ iterStep fk phys s acts, r.terminated = false) →
        ∃ r, (iterStep fk phys s acts)[m - 1]? = some r ∧ r.truncated = true) := by
  refine ⟨?_, ?_, ?_⟩
  · intro opts s
    unfold resetState
    cases opts.randomize <;> simp
  · intro fk phys s a hnone
    exact step_truncated_none fk phys s a hnone
  · intro fk phys acts s m hmax hcnt hlen hm hterm
    have hlen2 : (iterStep fk phys s acts).length = m := by
      rw [iterStep_length]; exact hlen
    have hidx : m - 1 < (iterStep fk phys s acts).length := by omega
    refine ⟨(iterStep fk phys s acts)[m - 1], List.getElem?_eq_getElem hidx, ?_⟩
    have := iterStep_truncated_spec fk phys m acts s hmax hterm (m - 1)
      (iterStep fk phys s acts)[m - 1] (List.getElem?_eq_getElem hidx)
    rw [this, hcnt]
    simp only [decide_eq_true_eq]
    omega

/-- A state over `cfg0` with an unbounded episode ceiling. -/
def sNone : EnvState := { s0 with cfg := { cfg0 with maxEpisodeSteps := none } }

/-- A fresh state over `cfg0` with episode ceiling 2. -/
def sTwo : EnvState := { s0 with cfg := { cfg0 with maxEpisodeSteps := some 2 } }

/-- Witness for C4 at concrete inputs: the counter is zeroed by reset, an
unbounded environment never truncates, and a ceiling-2 environment whose
effector stays away from the target truncates on the second step. -/
theorem step_counter_truncation_reset_at :
    (resetState ⟨none, false, none, none⟩ s0).stepCount = 0
    ∧ (step fkZero phys0 sNone act0).truncated = false
    ∧ (∃ r, (iterStep fkZero phys0 sTwo [act0, act0])[1]? = some r
        ∧ r.truncated = true) := by
  refine ⟨step_counter_truncation_reset.1 _ s0,
    step_counter_truncation_reset.2.1 fkZero phys0 sNone act0 rfl,
    step_counter_truncation_reset.2.2 fkZero phys0 [act0, act0] sTwo 2 rfl rfl rfl
      (by norm_num) ?_⟩
  have hterm : ∀ (s : EnvState), s.target = (⟨1/2, 0, 1/2⟩ : Point3) →
      s.epsilon = 1/1000 → (step fkZero phys0 s act0).terminated = false := by
    intro s ht he
    show decide (0 < s.epsilon ∧ sqDist (refreshed_effector fkZero phys0 s act0) s.target < s.epsilon ^ 2) = false
    rw [decide_eq_false_iff_not]
    rintro ⟨-, hlt⟩
    rw [ht, he] at hlt
    norm_num [sqDist, refreshed_effector, next_joints, effector_pos, fkZero] at hlt
  intro r hr
  simp only [iterStep, List.mem_cons, List.not_mem_nil, or_false] at hr
  rcases hr with h | h
  · rw [h]
    exact hterm sTwo rfl rfl
  · rw [h]
    apply hterm
    · show sTwo.target = _
      rfl
    · show sTwo.epsilon = _
      rfl

/-! ### C5: determinism and seed reproducibility -/

/-- A non-randomized reset is idempotent on the episode state: running it a
second time with the same options changes nothing. -/
theorem resetState_idem (opts : ResetOptions) (s : EnvState)
    (h : opts.randomize = false) :
    resetState opts (resetState opts s) = resetState opts s := by
  unfold resetState
  rw [h]
  cases hp : opts.targetInitialPos <;> simp [hp]

/-- Two states with the same configuration and RNG state produce the same
RNG state and the same target after one randomized reset. -/
theorem resetState_rng_congr (opts : ResetOptions) (s1 s2 : EnvState)
    (hr : opts.randomize = true) (h : s1.rngState = s2.rngState) :
    (resetState opts s1).rngState = (resetState opts s2).rngState
    ∧ (resetState opts s1).target = (resetState opts s2).target := by
  unfold resetState
  rw [hr, h]
  exact ⟨rfl, rfl⟩

/-- Along iterated randomized resets, equal initial RNG states keep the RNG
states equal and, from the first reset on, the drawn targets equal. -/
theorem resetIter_rng_congr (opts : ResetOptions) (s1 s2 : EnvState)
    (hr : opts.randomize = true) (h : s1.rngState = s2.rngState) :
    ∀ k : ℕ, (resetIter opts s1 k).rngState = (resetIter opts s2 k).rngState
      ∧ (0 < k → (resetIter opts s1 k).target = (resetIter opts s2 k).target) := by
  intro k
  induction k with
  | zero => exact ⟨h, by omega⟩
  | succ k ih =>
    have := resetState_rng_congr opts (resetIter opts s1 k) (resetIter opts s2 k) hr ih.1
    exact ⟨this.1, fun _ => this.2⟩

/-- A successfully constructed environment starts with its RNG seeded from
the configured seed. -/
theorem construct_rngState (cfg : EnvConfig) (s : EnvState)
    (h : construct cfg = .ok s) : s.rngState = cfg.seed % 2 ^ 64 := by
  unfold construct at h
  split at h
  · cases h
  · split at h
    · cases h
    · cases h
      rfl

/-- C5: (a) on any environment, two consecutive `reset` calls with identical
options and `randomize = false` return identical results (in particular
identical observations); (b) two environments constructed with the same
seed produce the same sequence of randomized target positions, run over
run. -/
theorem reset_deterministic_reproducible :
    (∀ (fk : ℚ × ℚ → Point3) (opts : ResetOptions) (s : EnvState),
      opts.randomize = false →
      reset fk opts (reset fk opts s).1 = reset fk opts s)
    ∧ (∀ (opts : ResetOptions) (cfg1 cfg2 : EnvConfig) (s1 s2 : EnvState) (k : ℕ),
        construct cfg1 = .ok s1 → construct cfg2 = .ok s2 →
        cfg1.seed = cfg2.seed → opts.randomize = true →
        (resetIter opts s1 (k + 1)).target = (resetIter opts s2 (k + 1)).target) := by
  constructor
  · intro fk opts s h
    simp [reset, resetState_idem opts s h]
  · intro opts cfg1 cfg2 s1 s2 k h1 h2 hseed hr
    have hrng : s1.rngState = s2.rngState := by
      rw [construct_rngState cfg1 s1 h1, construct_rngState cfg2 s2 h2, hseed]
    exact (resetIter_rng_congr opts s1 s2 hr hrng (k + 1)).2 (by omega)

/-- Options used by the witnesses: explicit target, no randomization. -/
def optsF : ResetOptions := ⟨some ⟨1/2, 0, 1/2⟩, false, none, none⟩

/-- Options used by the witnesses: randomize the target. -/
def optsR : ResetOptions := ⟨some ⟨1/2, 0, 1/2⟩, true, none, none⟩

/-- A second configuration sharing `cfg0`'s seed but starting from another
target position. -/
def cfgB : EnvConfig := { cfg0 with initTargetPos := ⟨0, 0, 0⟩ }

/-- The state constructed from `cfg0`. -/
def sA : EnvState :=
  { cfg := cfg0
    joints := ⟨113, -140, 0, 0⟩
    target := ⟨1 / 2, 0, 1 / 2⟩
    stepCount := 0
    rngState := 1234567 % 2 ^ 64
    epsilon := 1 / 1000
    closed := false }

/-- The state constructed from `cfgB`. -/
def sB : EnvState :=
  { cfg := cfgB
    joints := ⟨113, -140, 0, 0⟩
    target := ⟨0, 0, 0⟩
    stepCount := 0
    rngState := 1234567 % 2 ^ 64
    epsilon := 1 / 1000
    closed := false }

theorem construct_cfg0 : construct cfg0 = .ok sA := by
  unfold construct
  rw [if_neg (by norm_num [cfg0]), if_neg (by simp [cfg0])]
  rfl

theorem construct_cfgB : construct cfgB = .ok sB := by
  unfold construct
  rw [if_neg (by norm_num [cfgB, cfg0]), if_neg (by simp [cfgB, cfg0])]
  rfl

/-- Witness for C5 at concrete inputs: a repeated non-randomized reset of
`s0` reproduces the same result, and the two same-seed environments `sA` and
`sB` draw the same first randomized target. -/
theorem reset_deterministic_reproducible_at :
    reset fk0 optsF (reset fk0 optsF s0).1 = reset fk0 optsF s0
    ∧ (resetIter optsR sA 1).target = (resetIter optsR sB 1).target :=
  ⟨reset_deterministic_reproducible.1 fk0 optsF s0 rfl,
   reset_deterministic_reproducible.2 optsR cfg0 cfgB sA sB 0
     construct_cfg0 construct_cfgB rfl rfl⟩

/-! ### C6: close -/

/-- Modelled from the spec (§4.1 `close`): mark the environment's physics
session released.  The flag is all the model needs; the underlying PyBullet
disconnect is external. -/
def close1 (s : EnvState) : EnvState := { s with closed := true }

/-- Close the i-th environment of a world of environment instances,
leaving every other instance untouched. -/
def setClosed : List EnvState → ℕ → List EnvState
  | [], _ => []
  | e :: es, 0 => close1 e :: es
  | e :: es, i + 1 => e :: setClosed es i

/-- Modelled from the spec (§4.1 `close`): closing returns successfully,
also on an already-closed environment ("Idempotent — calling twice must not
fail"), so `closeAt` never produces an `EnvErr`. -/
def closeAt (w : List EnvState) (i : ℕ) : Except EnvErr (List EnvState) :=
  .ok (setClosed w i)

theorem close1_idem (s : EnvState) : close1 (close1 s) = close1 s := rfl

theorem setClosed_idem : ∀ (w : List EnvState) (i : ℕ),
    setClosed (setClosed w i) i = setClosed w i := by
  intro w
  induction w with
  | nil => intro i; rfl
  | cons e es ih =>
    intro i
    match i with
    | 0 => rfl
    | i + 1 => simp [setClosed, ih]

theorem setClosed_get_other : ∀ (w : List EnvState) (i j : ℕ), j ≠ i →
    (setClosed w i)[j]? = w[j]? := by
  intro w
  induction w with
  | nil => intro i j _; rfl
  | cons e es ih =>
    intro i j hne
    match i, j with
    | 0, 0 => exact absurd rfl hne
    | 0, j + 1 => simp [setClosed]
    | i + 1, 0 => simp [setClosed]
    | i + 1, j + 1 =>
      show (e :: setClosed es i)[j + 1]? = _
      rw [List.getElem?_cons_succ, List.getElem?_cons_succ]
      exact ih i j (by omega)

/-- C6: `close` is idempotent and isolated: closing the i-th environment
never raises (`closeAt` answers `.ok` on every world, in particular on one
where instance i is already closed), closing an already-closed instance
changes nothing, and every other instance j is left exactly as it was. -/
theorem close_idempotent_isolated (w : List EnvState) (i : ℕ) :
    closeAt w i = .ok (setClosed w i)
    ∧ closeAt (setClosed w i) i = .ok (setClosed w i)
    ∧ ∀ j : ℕ, j ≠ i → (setClosed w i)[j]? = w[j]? := by
  refine ⟨rfl, ?_, setClosed_get_other w i⟩
  show Except.ok (setClosed (setClosed w i) i) = _
  rw [setClosed_idem]

/-- Witness for C6 at a concrete world: closing instance 0 of the world
`[s0, sA]` twice yields the same success result and leaves instance 1
untouched. -/
theorem close_idempotent_isolated_at :
    closeAt (setClosed [s0, sA] 0) 0 = .ok (setClosed [s0, sA] 0)
    ∧ (setClosed [s0, sA] 0)[1]? = ([s0, sA] : List EnvState)[1]? :=
  ⟨(close_idempotent_isolated [s0, sA] 0).2.1,
   (close_idempotent_isolated [s0, sA] 0).2.2 1 (by omega)⟩

/-! ### C7: return shape of reset

The claim states that `reset(options)` returns a bare observation vector.
The notebook cell of section 2.3 unpacks the return value as
`obs, _ = env.reset(options={...})`, which requires a pair; the model
follows that call site (and spec §9, which records the `(observation,
info)` shape), so the bare-return claim fails and the pair-return statement
holds. -/

/-- Counterexample to C7 as stated: at a concrete input, the value returned
by `reset` is not a bare observation. -/
theorem reset_returns_bare_counterexample :
    ResetRet.isBare (reset fk0 optsF s0).2 = false := rfl

/-- C7 (amended): for every call, `reset` returns an `(observation, info)`
pair whose observation is derived from the post-reset state — not a bare
observation vector. -/
theorem reset_returns_obs_info_pair (fk : ℚ × ℚ → Point3)
    (opts : ResetOptions) (s : EnvState) :
    (reset fk opts s).2 = ResetRet.pair (mkObs fk (resetState opts s)) ()
    ∧ ResetRet.isBare (reset fk opts s).2 = false :=
  ⟨rfl, rfl⟩

/-! ### C8: trajectory sampling

Modelled from the spec: `sample_line` and `sample_traj4pts` live in
`utils/tools.py`, which is not under the source tree.  §4.3: the harness is
"given a closed polygonal trajectory defined by a small ordered set of 2D
waypoints" and "samples the trajectory into equally spaced points"; the
notebook passes four segments `((p2,p3),(p3,p4),(p4,p1),(p1,p2))` and a
per-edge point count `nb_pts_per_line`.  Each edge from `a` to `b` is
sampled at the `n` parameters `i/n`, `i = 0 … n-1` (the edge's endpoint is
the first sample of the next edge of the closed chain). -/

/-- A 2D waypoint of the evaluation trajectory (the x–z working plane). -/
structure Point2 where
  x : ℚ
  z : ℚ
deriving DecidableEq

/-- Squared Euclidean distance in the trajectory plane. -/
def sqDist2 (a b : Point2) : ℚ := (a.x - b.x) ^ 2 + (a.z - b.z) ^ 2

/-- The point of the segment from `a` to `b` at parameter `t` ∈ [0, 1]. -/
def lineAt (a b : Point2) (t : ℚ) : Point2 :=
  ⟨a.x + t * (b.x - a.x), a.z + t * (b.z - a.z)⟩

/-- Modelled from the spec: `sample_line` of `utils/tools.py`; `n` equally
spaced points along the segment from `a` to `b`, endpoint excluded. -/
def sample_line (a b : Point2) (n : ℕ) : List Point2 :=
  (List.range n).map (fun (i : ℕ) => lineAt a b ((i : ℚ) / (n : ℚ)))

/-- Sample every segment of a polygonal chain with `n` points per segment
and concatenate. -/
def sampleSegs (segs : List (Point2 × Point2)) (n : ℕ) : List Point2 :=
  match segs with
  | [] => []
  | s :: rest => sample_line s.1 s.2 n ++ sampleSegs rest n

/-- Modelled from the spec: `sample_traj4pts` of `utils/tools.py`, applied
to the four segments of a closed quadrilateral (the source also returns the
arc-length spacing `dl`, which no claim inspects). -/
def sample_traj4pts
    (t : (Point2 × Point2) × (Point2 × Point2) × (Point2 × Point2) × (Point2 × Point2))
    (n : ℕ) : List Point2 :=
  sampleSegs [t.1, t.2.1, t.2.2.1, t.2.2.2] n

/-- The segments form a chain: each segment starts where the previous one
ends. -/
def chainedSegs : List (Point2 × Point2) → Bool
  | [] => true
  | [_] => true
  | s1 :: s2 :: r => decide (s1.2 = s2.1) && chainedSegs (s2 :: r)

theorem chainedSegs_cons_cons {s1 s2 : Point2 × Point2} {r : List (Point2 × Point2)}
    (h : chainedSegs (s1 :: s2 :: r) = true) :
    s1.2 = s2.1 ∧ chainedSegs (s2 :: r) = true := by
  have h2 := h
  unfold chainedSegs at h2
  rw [Bool.and_eq_true, decide_eq_true_eq] at h2
  exact h2

theorem sample_line_length (a b : Point2) (n : ℕ) :
    (sample_line a b n).length = n := by
  rw [sample_line, List.length_map, List.length_range]

theorem sample_line_getElem (a b : Point2) (n i : ℕ) (h : i < n) :
    (sample_line a b n)[i]? = some (lineAt a b ((i : ℚ) / (n : ℚ))) := by
  rw [sample_line, List.getElem?_map, List.getElem?_range h]
  rfl

theorem sampleSegs_length (segs : List (Point2 × Point2)) (n : ℕ) :
    (sampleSegs segs n).length = segs.length * n := by
  induction segs with
  | nil => simp [sampleSegs]
  | cons s rest ih =>
    rw [sampleSegs, List.length_append, sample_line_length, ih,
      List.length_cons]
    ring

theorem sqDist2_lineAt (a b : Point2) (t u : ℚ) :
    sqDist2 (lineAt a b t) (lineAt a b u) = (u - t) ^ 2 * sqDist2 a b := by
  simp [sqDist2, lineAt]
  ring

theorem lineAt_zero (a b : Point2) : lineAt a b 0 = a := by
  simp [lineAt]

theorem lineAt_one (a b : Point2) : lineAt a b 1 = b := by
  cases b with
  | mk bx bz =>
    simp [lineAt, Point2.mk.injEq]

/-- Consecutive samples of a chained polygonal trajectory whose segments all
have squared length `L` are separated by the constant squared spacing
`L / n²`, within segments and across segment boundaries alike. -/
theorem sampleSegs_gap (n : ℕ) (hn : 0 < n) (L : ℚ) :
    ∀ (segs : List (Point2 × Point2)), chainedSegs segs = true →
      (∀ s ∈ segs, sqDist2 s.1 s.2 = L) →
      ∀ (k : ℕ) (p q : Point2),
        (sampleSegs segs n)[k]? = some p → (sampleSegs segs n)[k + 1]? = some q →
        sqDist2 p q = L / (n : ℚ) ^ 2 := by
  have hnQ : ((n : ℚ)) ≠ 0 := by
    exact_mod_cast Nat.pos_iff_ne_zero.mp hn
  intro segs
  induction segs with
  | nil =>
    intro _ _ k p q hp _
    simp [sampleSegs] at hp
  | cons s rest ih =>
    intro hchain hlen k p q hp hq
    have hL : sqDist2 s.1 s.2 = L := hlen s (List.mem_cons_self s rest)
    rw [sampleSegs] at hp hq
    rcases Nat.lt_or_ge (k + 1) n with hk1 | hk1
    · -- both samples inside the current segment
      rw [List.getElem?_append_left (by rw [sample_line_length]; omega)] at hp
      rw [List.getElem?_append_left (by rw [sample_line_length]; omega)] at hq
      rw [sample_line_getElem _ _ _ _ (by omega)] at hp
      rw [sample_line_getElem _ _ _ _ hk1] at hq
      cases hp
      cases hq
      rw [sqDist2_lineAt, hL]
      have : ((k + 1 : ℕ) : ℚ) / (n : ℚ) - ((k : ℕ) : ℚ) / (n : ℚ) = 1 / (n : ℚ) := by
        push_cast
        field_simp
      rw [this]
      field_simp
    · rcases Nat.lt_or_ge k n with hk2 | hk2
      · -- the boundary gap: last sample of this segment, first of the next
        have hkn : k = n - 1 := by omega
        have hk1n : k + 1 = n := by omega
        rw [List.getElem?_append_left (by rw [sample_line_length]; omega)] at hp
        rw [sample_line_getElem _ _ _ _ (by omega)] at hp
        cases hp
        rw [List.getElem?_append_right (by rw [sample_line_length]; omega)] at hq
        match rest with
        | [] =>
          simp [sampleSegs] at hq
        | s2 :: rest2 =>
          have hch := chainedSegs_cons_cons hchain
          rw [sampleSegs] at hq
          rw [List.getElem?_append_left
                (by rw [sample_line_length, sample_line_length]; omega)] at hq
          rw [show k + 1 - (sample_line s.1 s.2 n).length = 0 by
                rw [sample_line_length]; omega] at hq
          rw [sample_line_getElem _ _ _ _ hn] at hq
          cases hq
          rw [show ((0 : ℕ) : ℚ) / (n : ℚ) = 0 by norm_num, lineAt_zero, ← hch.1]
          have hgap := sqDist2_lineAt s.1 s.2 (((k : ℕ) : ℚ) / (n : ℚ)) 1
          rw [lineAt_one] at hgap
          rw [hgap, hL, hkn]
          have : (1 : ℚ) - ((n - 1 : ℕ) : ℚ) / (n : ℚ) = 1 / (n : ℚ) := by
            rw [Nat.cast_sub (by omega)]
            push_cast
            field_simp
          rw [this]
          field_simp
      · -- both samples in the tail of the chain
        rw [List.getElem?_append_right (by rw [sample_line_length]; omega)] at hp
        rw [List.getElem?_append_right (by rw [sample_line_length]; omega)] at hq
        rw [sample_line_length] at hp hq
        have hq2 : (sampleSegs rest n)[(k - n) + 1]? = some q := by
          rw [show k - n + 1 = k + 1 - n by omega]
          exact hq
        have hchain2 : chainedSegs rest = true := by
          match rest with
          | [] => rfl
          | s2 :: rest2 => exact (chainedSegs_cons_cons hchain).2
        have hlen2 : ∀ s2 ∈ rest, sqDist2 s2.1 s2.2 = L := by
          intro s2 hs2
          exact hlen s2 (List.mem_cons_of_mem _ hs2)
        exact ih hchain2 hlen2 (k - n) p q hp hq2

/-- The rectangle used to refute uniform spacing for general
quadrilaterals: edges of length 2, 1, 2, 1. -/
def rectTraj :
    (Point2 × Point2) × (Point2 × Point2) × (Point2 × Point2) × (Point2 × Point2) :=
  ((⟨0, 0⟩, ⟨2, 0⟩), (⟨2, 0⟩, ⟨2, 1⟩), (⟨2, 1⟩, ⟨0, 1⟩), (⟨0, 1⟩, ⟨0, 0⟩))

/-- Counterexample to C8 as stated: on the closed 2×1 rectangle with one
point per edge, the first two consecutive spacings of the returned sequence
differ (squared 4 versus 1, so Euclidean 2 versus 1): the sampled sequence
of a closed quadrilateral with edges of unequal length is not uniformly
spaced. -/
theorem sample_traj4pts_uniform_counterexample :
    (sample_traj4pts rectTraj 1)[0]? = some ⟨0, 0⟩
    ∧ (sample_traj4pts rectTraj 1)[1]? = some ⟨2, 0⟩
    ∧ (sample_traj4pts rectTraj 1)[2]? = some ⟨2, 1⟩
    ∧ sqDist2 ⟨0, 0⟩ ⟨2, 0⟩ ≠ sqDist2 ⟨2, 0⟩ ⟨2, 1⟩ := by
  refine ⟨?_, ?_, ?_, ?_⟩
  · norm_num [sample_traj4pts, rectTraj, sampleSegs, sample_line, lineAt,
      List.range_succ]
  · norm_num [sample_traj4pts, rectTraj, sampleSegs, sample_line, lineAt,
      List.range_succ]
  · norm_num [sample_traj4pts, rectTraj, sampleSegs, sample_line, lineAt,
      List.range_succ]
  · norm_num [sqDist2]

/-- C8 (amended): for a closed quadrilateral whose four edges have equal
(squared) length `L` — forced by the counterexample: per-edge sampling with
`N` points per edge is uniform exactly when the edges have equal length —
the returned sequence has exactly 4×N points and every pair of consecutive
points is separated by the same spacing `√L / N` (stated on squares:
squared spacing `L / N²`), exactly over ℚ, hence within any declared
floating-point tolerance. -/
theorem sample_traj4pts_length_spacing
    (t : (Point2 × Point2) × (Point2 × Point2) × (Point2 × Point2) × (Point2 × Point2))
    (n : ℕ) (L : ℚ) (hn : 0 < n)
    (hchain : chainedSegs [t.1, t.2.1, t.2.2.1, t.2.2.2] = true)
    (hlen : ∀ s ∈ [t.1, t.2.1, t.2.2.1, t.2.2.2], sqDist2 s.1 s.2 = L) :
    (sample_traj4pts t n).length = 4 * n
    ∧ ∀ (k : ℕ) (p q : Point2),
        (sample_traj4pts t n)[k]? = some p → (sample_traj4pts t n)[k + 1]? = some q →
        sqDist2 p q = L / (n : ℚ) ^ 2 := by
  constructor
  · rw [sample_traj4pts, sampleSegs_length]
    rfl
  · exact sampleSegs_gap n hn L _ hchain hlen

/-- The unit square with two sample points per edge. -/
def sqTraj :
    (Point2 × Point2) × (Point2 × Point2) × (Point2 × Point2) × (Point2 × Point2) :=
  ((⟨0, 0⟩, ⟨1, 0⟩), (⟨1, 0⟩, ⟨1, 1⟩), (⟨1, 1⟩, ⟨0, 1⟩), (⟨0, 1⟩, ⟨0, 0⟩))

/-- Witness for C8 (amended) on the unit square with N = 2: eight points,
and the spacing between the second and third sampled points is the uniform
value 1/2 (squared: 1/4). -/
theorem sample_traj4pts_length_spacing_at :
    (sample_traj4pts sqTraj 2).length = 8
    ∧ sqDist2 ⟨1 / 2, 0⟩ ⟨1, 0⟩ = 1 / 4 := by
  have hlen : ∀ s ∈ [sqTraj.1, sqTraj.2.1, sqTraj.2.2.1, sqTraj.2.2.2],
      sqDist2 s.1 s.2 = 1 := by
    intro s hs
    fin_cases hs <;> norm_num [sqTraj, sqDist2]
  have h := sample_traj4pts_length_spacing sqTraj 2 1 (by norm_num)
    (by decide) hlen
  refine ⟨h.1, ?_⟩
  have h1 : (sample_traj4pts sqTraj 2)[1]? = some ⟨1 / 2, 0⟩ := by
    norm_num [sample_traj4pts, sqTraj, sampleSegs, sample_line, lineAt,
      List.range_succ]
  have h2 : (sample_traj4pts sqTraj 2)[2]? = some ⟨1, 0⟩ := by
    norm_num [sample_traj4pts, sqTraj, sampleSegs, sample_line, lineAt,
      List.range_succ]
  have := h.2 1 ⟨1 / 2, 0⟩ ⟨1, 0⟩ h1 h2
  norm_num at this
  exact this

/-! ### C9: best-checkpoint selection

Embedded from the notebook cell of section 2.3: the loop browses the saved
weight files, computes for each the list `err` of the five final
effector–target distances and its mean `e_mean`, and keeps the file with
`if e_mean < err_mean: best_train = file; err_mean = e_mean`, starting from
`err_mean = np.inf` (so the first file is always taken; the stored standard
deviation never influences the selection and is omitted).  Each checkpoint
is abstracted as its name together with its measured per-target error
list. -/

/-- Arithmetic mean of a list of rationals (`np.array(err).mean()`). -/
def meanQ (l : List ℚ) : ℚ := l.sum / (l.length : ℚ)

/-- One iteration of the selection: keep the incumbent unless the new file's
mean error is strictly smaller; `none` plays the role of the initial
`err_mean = np.inf`, beaten by every finite mean. -/
def bestFold (acc : Option (String × ℚ)) (entry : String × List ℚ) :
    Option (String × ℚ) :=
  match acc with
  | none => some (entry.1, meanQ entry.2)
  | some b => if meanQ entry.2 < b.2 then some (entry.1, meanQ entry.2) else some b

/-- The `best_train` selection of the notebook: fold the comparison over
the browsed checkpoint files in order. -/
def best_train (files : List (String × List ℚ)) : Option (String × ℚ) :=
  files.foldl bestFold none

theorem bestFold_some : ∀ (files : List (String × List ℚ)) (b : String × ℚ),
    ∃ r : String × ℚ, files.foldl bestFold (some b) = some r
      ∧ (r = b ∨ ∃ p ∈ files, r = (p.1, meanQ p.2))
      ∧ r.2 ≤ b.2
      ∧ ∀ p ∈ files, r.2 ≤ meanQ p.2 := by
  intro files
  induction files with
  | nil =>
    intro b
    exact ⟨b, rfl, Or.inl rfl, le_refl _, by simp⟩
  | cons f fs ih =>
    intro b
    by_cases h : meanQ f.2 < b.2
    · obtain ⟨r, hr, hprov, hle, hall⟩ := ih (f.1, meanQ f.2)
      refine ⟨r, ?_, ?_, ?_, ?_⟩
      · rw [List.foldl_cons]
        show fs.foldl bestFold (bestFold (some b) f) = some r
        rw [show bestFold (some b) f = some (f.1, meanQ f.2) by
          simp only [bestFold]; rw [if_pos h]]
        exact hr
      · rcases hprov with hrb | ⟨p, hp, hrp⟩
        · exact Or.inr ⟨f, List.mem_cons_self f fs, hrb⟩
        · exact Or.inr ⟨p, List.mem_cons_of_mem f hp, hrp⟩
      · exact le_of_lt (lt_of_le_of_lt hle h)
      · intro p hp
        rcases List.mem_cons.mp hp with hpf | hpfs
        · rw [hpf]; exact hle
        · exact hall p hpfs
    · obtain ⟨r, hr, hprov, hle, hall⟩ := ih b
      refine ⟨r, ?_, ?_, hle, ?_⟩
      · rw [List.foldl_cons]
        show fs.foldl bestFold (bestFold (some b) f) = some r
        rw [show bestFold (some b) f = some b by
          simp only [bestFold]; rw [if_neg h]]
        exact hr
      · rcases hprov with hrb | ⟨p, hp, hrp⟩
        · exact Or.inl hrb
        · exact Or.inr ⟨p, List.mem_cons_of_mem f hp, hrp⟩
      · intro p hp
        rcases List.mem_cons.mp hp with hpf | hpfs
        · rw [hpf]
          exact le_trans hle (not_lt.mp h)
        · exact hall p hpfs

/-- C9: on a nonempty list of browsed checkpoint files, `best_train`
selects a checkpoint whose mean final distance-to-target error is minimal
among all of them: the reported mean is the mean error of one of the
browsed files and is ≤ the mean error of every browsed file. -/
theorem best_train_minimal_mean (files : List (String × List ℚ))
    (hne : files ≠ []) :
    ∃ bf bm, best_train files = some (bf, bm)
      ∧ (∃ e, (bf, e) ∈ files ∧ meanQ e = bm)
      ∧ ∀ p ∈ files, bm ≤ meanQ p.2 := by
  match files, hne with
  | f :: fs, _ =>
    obtain ⟨r, hr, hprov, hle, hall⟩ := bestFold_some fs (f.1, meanQ f.2)
    refine ⟨r.1, r.2, ?_, ?_, ?_⟩
    · show (f :: fs).foldl bestFold none = some (r.1, r.2)
      rw [List.foldl_cons]
      show fs.foldl bestFold (bestFold none f) = _
      rw [show bestFold none f = some (f.1, meanQ f.2) from rfl]
      rw [hr]
    · rcases hprov with hrb | ⟨p, hp, hrp⟩
      · refine ⟨f.2, ?_, ?_⟩
        · rw [show (r.1, f.2) = f by rw [hrb]]
          exact List.mem_cons_self f fs
        · rw [hrb]
      · refine ⟨p.2, ?_, ?_⟩
        · rw [show (r.1, p.2) = p by rw [hrp]]
          exact List.mem_cons_of_mem f hp
        · rw [hrp]
    · intro p hp
      rcases List.mem_cons.mp hp with hpf | hpfs
      · rw [hpf]
        exact hle
      · exact hall p hpfs

/-- A concrete browsed-checkpoint list: the first file has mean error 5/2,
the second mean error 1. -/
def filesW : List (String × List ℚ) :=
  [("rl_model_100000_steps.zip", [3, 2]), ("rl_model_200000_steps.zip", [1, 1])]

/-- Witness for C9 on `filesW`. -/
theorem best_train_minimal_mean_at :
    filesW ≠ []
    ∧ ∃ bf bm, best_train filesW = some (bf, bm)
      ∧ (∃ e, (bf, e) ∈ filesW ∧ meanQ e = bm)
      ∧ ∀ p ∈ filesW, bm ≤ meanQ p.2 :=
  ⟨by simp [filesW], best_train_minimal_mean filesW (by simp [filesW])⟩

/-! ### C10: the per-target control loop of the evaluation harness

Embedded from the notebook cell of section 2.3:

    terminated, truncated, step_count = False, False, 0
    while step_count < MAX_EPISODE_STEPS:
        action, _ = agent.predict(obs, deterministic=True)
        obs, reward, terminated, truncated, info = env.step(action)
        step_count += 1
        if terminated: break

The environment's own ceiling is disabled for this loop
(`env._max_episode_steps = None` and `max_episode_steps = None` at
construction).  The step results consumed by the loop are abstracted as an
oracle `ℕ → Bool × Bool` giving the `(terminated, truncated)` pair of the
i-th `env.step` call; the loop binds `truncated` but its control flow reads
only `terminated`. -/

/-- `MAX_EPISODE_STEPS = 256` of the notebook. -/
def MAX_EPISODE_STEPS : ℕ := 256

/-- The while-loop, with `c` the current `step_count` and the remaining
fuel `maxSteps - c`; returns the final `step_count`, which equals the
number of `env.step` calls made. -/
def evalControlLoop (stepRes : ℕ → Bool × Bool) : ℕ → ℕ → ℕ
  | c, 0 => c
  | c, fuel + 1 => if (stepRes c).1 then c + 1 else evalControlLoop stepRes (c + 1) fuel

/-- Number of `env.step` calls made by the per-target loop for one target. -/
def step_count_of (stepRes : ℕ → Bool × Bool) : ℕ :=
  evalControlLoop stepRes 0 MAX_EPISODE_STEPS

theorem evalControlLoop_le (stepRes : ℕ → Bool × Bool) :
    ∀ (fuel c : ℕ), evalControlLoop stepRes c fuel ≤ c + fuel := by
  intro fuel
  induction fuel with
  | zero => intro c; simp [evalControlLoop]
  | succ fuel ih =>
    intro c
    rw [evalControlLoop]
    by_cases h : (stepRes c).1 = true
    · rw [if_pos h]; omega
    · rw [if_neg h]
      have := ih (c + 1)
      omega

theorem evalControlLoop_early_exit (stepRes : ℕ → Bool × Bool) :
    ∀ (fuel c : ℕ), evalControlLoop stepRes c fuel < c + fuel →
      (stepRes (evalControlLoop stepRes c fuel - 1)).1 = true := by
  intro fuel
  induction fuel with
  | zero => intro c h; simp [evalControlLoop] at h
  | succ fuel ih =>
    intro c h
    rw [evalControlLoop] at h ⊢
    by_cases hc : (stepRes c).1 = true
    · rw [if_pos hc] at h ⊢
      simpa using hc
    · rw [if_neg hc] at h ⊢
      exact ih (c + 1) (by omega)

theorem evalControlLoop_congr (f g : ℕ → Bool × Bool)
    (h : ∀ i, (f i).1 = (g i).1) :
    ∀ (fuel c : ℕ), evalControlLoop f c fuel = evalControlLoop g c fuel := by
  intro fuel
  induction fuel with
  | zero => intro c; rfl
  | succ fuel ih =>
    intro c
    rw [evalControlLoop, evalControlLoop, h c]
    by_cases hc : (g c).1 = true
    · rw [if_pos hc, if_pos hc]
    · rw [if_neg hc, if_neg hc, ih]

/-- C10: the per-target control loop of the evaluation harness calls
`env.step` at most `MAX_EPISODE_STEPS = 256` times; it stops before the
ceiling only when the last step's `terminated` flag is true; its step count
never depends on the `truncated` flags the oracle returns; and with the
environment ceiling disabled (`_max_episode_steps = None`) the environment
itself never truncates, so the bound comes from the harness counter alone. -/
theorem eval_loop_bounded_terminated_only (f : ℕ → Bool × Bool) :
    step_count_of f ≤ MAX_EPISODE_STEPS
    ∧ (step_count_of f < MAX_EPISODE_STEPS →
        (f (step_count_of f - 1)).1 = true)
    ∧ (∀ g : ℕ → Bool × Bool, (∀ i, (f i).1 = (g i).1) →
        step_count_of f = step_count_of g)
    ∧ (∀ (fk : ℚ × ℚ → Point3) (phys : ℚ → JointConfig → Action → JointConfig)
        (s : EnvState) (a : Action), s.cfg.maxEpisodeSteps = none →
        (step fk phys s a).truncated = false) := by
  refine ⟨?_, ?_, ?_, ?_⟩
  · have := evalControlLoop_le f MAX_EPISODE_STEPS 0
    simpa [step_count_of] using this
  · intro h
    exact evalControlLoop_early_exit f MAX_EPISODE_STEPS 0 (by simpa [step_count_of] using h)
  · intro g hg
    exact evalControlLoop_congr f g hg MAX_EPISODE_STEPS 0
  · intro fk phys s a hnone
    exact step_truncated_none fk phys s a hnone

/-- A concrete oracle: the third `env.step` call terminates the episode,
all truncation flags are false. -/
def oracle3 : ℕ → Bool × Bool := fun i => (decide (i = 2), false)

/-- Witness for C10: under `oracle3` the loop makes 3 ≤ 256 step calls,
its early exit is justified by the terminated flag of its last step, and
the unbounded environment `sNone` does not truncate. -/
theorem eval_loop_bounded_terminated_only_at :
    step_count_of oracle3 = 3
    ∧ (oracle3 (step_count_of oracle3 - 1)).1 = true
    ∧ (step fkZero phys0 sNone act0).truncated = false := by
  have h3 : step_count_of oracle3 = 3 := by decide
  refine ⟨h3, ?_, ?_⟩
  · exact (eval_loop_bounded_terminated_only oracle3).2.1 (by rw [h3]; decide)
  · exact (eval_loop_bounded_terminated_only oracle3).2.2.2 fkZero phys0 sNone act0 rfl

end DRLArm
